import Mathlib

/-!
Verification development for the serde decoding engine of the go-gum/gum
repository (the file defining `Unmarshal`, `setterOf`, `makeSetterOf`, the
shape-specific setters and `fieldsToSerialize`).

The embedding is shallow:

* `GoErr` models the error values (`ErrInvalidType`, `ErrNoValue`,
  `NotSupportedError`, `fmt.Errorf` leaves and `%w`-wrapping);
  `GoErr.isNoValue` models `errors.Is(err, ErrNoValue)`.
* `TValue` models the reflected target value a setter writes into.
* `Ty` models the reflected target type.  Go's cyclic `reflect.Type` graphs
  are represented with the `Ty.named` constructor resolved through an
  environment `Env` of named types; `Ty.withTextUnmarshal` marks a type whose
  pointer type implements `encoding.TextUnmarshaler`, carrying the behaviour
  of its `UnmarshalText` method (the Go check `reflect.PointerTo(ty).
  Implements(tyTextUnmarshaler)` happens before the kind switch, and so does
  the corresponding match here).
* `Src σ` models a `SourceValue`.  Go sources can hide mutable state (the
  binary source advances a reader); that state is made explicit as a value of
  type `σ` threaded through every accessor call in call order.  Optional
  capabilities (`ContainerSourceValue`, `SliceSourceValue`, `MapSourceValue`,
  `IntSourceValue`) are `Option` fields; a Go type assertion corresponds to
  an `Option` match.  The `Iter` capability is modelled pull-style: `seqC`
  carries the `Iter()` call itself (which may fail) and a pull function
  returning the next element source, mirroring `iter.Pull`.
* Setters mutate `reflect.Value`s in place; here a setter maps the prior
  target value to the new one and returns the value as written so far even
  when it also returns an error, which is exactly the partial-write behaviour
  of the Go code.  `setValue` is the compiled setter's runtime behaviour,
  with a fuel argument making the interpreter total: a `none` result means
  the budget ran out (the Go code would still be running).
* `setterOk` models the compile phase `setterOf`/`makeSetterOf` including the
  `inConstruction` cycle set; it is a total function (no fuel), so the fact
  that it is accepted by Lean is the termination argument for compilation.
  The `cachedSetters` map is not modelled: it only short-circuits
  recompilation, and the lazily-bound cycle setter that re-reads the cache is
  represented by `setValue` resolving `Ty.named` through the environment at
  decode time, which is the value the cache holds once the top-level compile
  has finished.
-/

namespace GumSerde

inductive GoErr where
  | invalidType
  | noValue
  | notSupported (descr : String)
  | txt (msg : String)
  | wrap (msg : String) (cause : GoErr)
deriving DecidableEq, Repr

/-- Model of `errors.Is(err, ErrNoValue)`: unwrap the `%w` chain. -/
def GoErr.isNoValue : GoErr → Bool
  | .noValue => true
  | .wrap _ e => e.isNoValue
  | _ => false

/-- Width of a Go integer kind; `word` stands for the word-sized kinds
`reflect.Int` / `reflect.Uint` (64-bit on the supported platforms). -/
inductive IntW where
  | w8 | w16 | w32 | w64 | word
deriving DecidableEq, Repr

def IntW.bits : IntW → Nat
  | .w8 => 8
  | .w16 => 16
  | .w32 => 32
  | .w64 => 64
  | .word => 64

/-- Two's-complement truncation performed by `reflect.Value.SetInt` when the
target kind is narrower than int64. -/
def truncInt (w : IntW) (v : Int) : Int := Int.bmod v (2 ^ w.bits)

/-- Truncation performed by `reflect.Value.SetUint`. -/
def truncNat (w : IntW) (v : Nat) : Nat := v % 2 ^ w.bits

/-- A reflected Go value as far as the decoder reads and writes it.  Floats
are carried as an opaque bit payload: the decoder only copies them. -/
inductive TValue where
  | vbool (b : Bool)
  | vint (v : Int)
  | vuint (v : Nat)
  | vfloat (bits : Nat)
  | vstr (s : String)
  | vptr (p : Option TValue)
  | vstruct (fs : List TValue)
  | vslice (es : List TValue)
  | varray (es : List TValue)
  | vmap (es : List (TValue × TValue))

mutual
def TValue.beqv : TValue → TValue → Bool
  | .vbool a, .vbool b => a == b
  | .vint a, .vint b => a == b
  | .vuint a, .vuint b => a == b
  | .vfloat a, .vfloat b => a == b
  | .vstr a, .vstr b => a == b
  | .vptr none, .vptr none => true
  | .vptr (some a), .vptr (some b) => TValue.beqv a b
  | .vstruct a, .vstruct b => TValue.beqvList a b
  | .vslice a, .vslice b => TValue.beqvList a b
  | .varray a, .varray b => TValue.beqvList a b
  | .vmap a, .vmap b => TValue.beqvPairs a b
  | _, _ => false
def TValue.beqvList : List TValue → List TValue → Bool
  | [], [] => true
  | a :: arest, b :: brest => TValue.beqv a b && TValue.beqvList arest brest
  | _, _ => false
def TValue.beqvPairs : List (TValue × TValue) → List (TValue × TValue) → Bool
  | [], [] => true
  | (ka, va) :: arest, (kb, vb) :: brest =>
      TValue.beqv ka kb && TValue.beqv va vb && TValue.beqvPairs arest brest
  | _, _ => false
end

/-- The `IntSourceValue` capability: exact-width reads. -/
structure SizedSrc (σ : Type) where
  i8 : σ → Except GoErr Int × σ
  i16 : σ → Except GoErr Int × σ
  i32 : σ → Except GoErr Int × σ
  i64 : σ → Except GoErr Int × σ
  u8 : σ → Except GoErr Nat × σ
  u16 : σ → Except GoErr Nat × σ
  u32 : σ → Except GoErr Nat × σ
  u64 : σ → Except GoErr Nat × σ

/-- A `SourceValue` over hidden mutable state `σ`.  The four scalar accessors
are the base interface; `child` is `ContainerSourceValue.Get`, `seqC` is
`SliceSourceValue.Iter` (call plus pull function), `kvs` is
`MapSourceValue.KeyValues`, `sized` is the `IntSourceValue` capability. -/
inductive Src (σ : Type) where
  | mk
      (sBool : σ → Except GoErr Bool × σ)
      (sInt : σ → Except GoErr Int × σ)
      (sFloat : σ → Except GoErr Nat × σ)
      (sStr : σ → Except GoErr String × σ)
      (child : Option (σ → String → Except GoErr (Src σ) × σ))
      (seqC : Option ((σ → Except GoErr Unit × σ) × (σ → Option (Src σ) × σ)))
      (kvs : Option (σ → Except GoErr (List (Src σ × Src σ)) × σ))
      (sized : Option (SizedSrc σ))

def Src.sBool : Src σ → σ → Except GoErr Bool × σ
  | .mk b _ _ _ _ _ _ _ => b

def Src.sInt : Src σ → σ → Except GoErr Int × σ
  | .mk _ i _ _ _ _ _ _ => i

def Src.sFloat : Src σ → σ → Except GoErr Nat × σ
  | .mk _ _ f _ _ _ _ _ => f

def Src.sStr : Src σ → σ → Except GoErr String × σ
  | .mk _ _ _ s _ _ _ _ => s

def Src.child : Src σ → Option (σ → String → Except GoErr (Src σ) × σ)
  | .mk _ _ _ _ c _ _ _ => c

def Src.seqC : Src σ → Option ((σ → Except GoErr Unit × σ) × (σ → Option (Src σ) × σ))
  | .mk _ _ _ _ _ q _ _ => q

def Src.kvs : Src σ → Option (σ → Except GoErr (List (Src σ × Src σ)) × σ)
  | .mk _ _ _ _ _ _ k _ => k

def Src.sized : Src σ → Option (SizedSrc σ)
  | .mk _ _ _ _ _ _ _ z => z

mutual
inductive Ty where
  | bool
  | int (w : IntW)
  | uint (w : IntW)
  | float32
  | float64
  | string
  | pointer (t : Ty)
  | struct (fields : List FieldI)
  | slice (t : Ty)
  | array (n : Nat) (t : Ty)
  | tmap (k v : Ty)
  | withTextUnmarshal (parse : String → TValue → TValue × Option GoErr) (inner : Ty)
  | named (n : String)
  | unsupported (descr : String)
inductive FieldI where
  | mk (name : String) (tag : String) (exported : Bool) (anonymous : Bool) (ty : Ty)
end

def FieldI.name : FieldI → String
  | .mk n _ _ _ _ => n

def FieldI.tag : FieldI → String
  | .mk _ t _ _ _ => t

def FieldI.exported : FieldI → Bool
  | .mk _ _ e _ _ => e

def FieldI.anonymous : FieldI → Bool
  | .mk _ _ _ a _ => a

def FieldI.ty : FieldI → Ty
  | .mk _ _ _ _ t => t

/-- Environment resolving `Ty.named` references, standing in for the cyclic
`reflect.Type` graph. -/
abbrev Env := List (String × Ty)

def lookupEnv : Env → String → Option Ty
  | [], _ => none
  | p :: rest, n => if p.1 == n then some p.2 else lookupEnv rest n

/-- Membership test on the in-construction set (`inConstruction[ty]`). -/
def inList (n : String) : List String → Bool
  | [] => false
  | m :: rest => (m == n) || inList n rest

mutual
def tySize : Ty → Nat
  | .pointer t => tySize t + 1
  | .struct fs => fieldsSize fs + 1
  | .slice t => tySize t + 1
  | .array _ t => tySize t + 1
  | .tmap k v => tySize k + tySize v + 1
  | .withTextUnmarshal _ t => tySize t + 1
  | _ => 1
def fieldsSize : List FieldI → Nat
  | [] => 0
  | .mk _ _ _ _ t :: fs => tySize t + fieldsSize fs + 1
end

theorem fieldsSize_cons (f : FieldI) (fs : List FieldI) :
    fieldsSize (f :: fs) = tySize f.ty + fieldsSize fs + 1 := by
  cases f
  rfl

theorem tySize_pos (ty : Ty) : 1 ≤ tySize ty := by
  cases ty <;> simp [tySize]

/-- Model of `nameOf`: parse the json struct tag into (resolved name,
explicit rename flag); the empty name means the field is skipped. -/
def nameOf (fi : FieldI) : String × Bool :=
  let tag := fi.tag
  if tag = "" then (fi.name, false)
  else if tag = "-" then ("", true)
  else
    match tag.toList.findIdx? (fun c => c = ',') with
    | none => (tag, true)
    | some idx =>
        if idx = 0 then (fi.name, false)
        else (String.mk (tag.toList.take idx), true)

/-- Candidate of `fieldsToSerialize`, merging Go's `Candidate` and `field`
records: resolved name, explicit flag, index path, field type. -/
structure Cand where
  name : String
  explicit : Bool
  index : List Nat
  ty : Ty

/-- Queue entry of the breadth-first walk (`Queued` in the Go code). -/
structure QItem where
  ty : Ty
  index : List Nat

/-- Field list of a type whose reflect kind is `Struct` (a type with an
`UnmarshalText` method can still have struct kind). -/
def structFieldsOf : Ty → Option (List FieldI)
  | .struct fs => some fs
  | .withTextUnmarshal _ t => structFieldsOf t
  | _ => none

/-- One level of the breadth-first walk: process the exported fields of a
struct at index prefix `parent`, producing the candidates contributed at this
level and the embedded structs queued for the next level. -/
def processFields (parent : List Nat) : Nat → List FieldI → List Cand × List QItem
  | _, [] => ([], [])
  | idx, fi :: rest =>
    let tail := processFields parent (idx + 1) rest
    if !fi.exported then tail
    else
      let ne := nameOf fi
      if ne.1 = "" then tail
      else
        let index := parent ++ [idx]
        if fi.anonymous && !ne.2 then
          if (structFieldsOf fi.ty).isSome then
            (tail.1, ⟨fi.ty, index⟩ :: tail.2)
          else tail
        else
          (⟨ne.1, ne.2, index, fi.ty⟩ :: tail.1, tail.2)

def sumQ : List QItem → Nat
  | [] => 0
  | q :: rest => tySize q.ty + sumQ rest

theorem fieldsSize_le (fi : FieldI) (fs : List FieldI) (h : fi ∈ fs) :
    tySize fi.ty < fieldsSize fs + 1 := by
  induction fs with
  | nil => cases h
  | cons g gs ih =>
      rw [fieldsSize_cons]
      cases h with
      | head => omega
      | tail _ hmem =>
          have := ih hmem
          omega

theorem structFieldsOf_size (fs : List FieldI) :
    (ty : Ty) → structFieldsOf ty = some fs → fieldsSize fs < tySize ty
  | .struct gs, h => by
      simp only [structFieldsOf, Option.some.injEq] at h
      subst h
      simp [tySize]
  | .withTextUnmarshal p t, h => by
      simp only [structFieldsOf] at h
      have := structFieldsOf_size fs t h
      simp only [tySize]
      omega
  | .bool, h | .int _, h | .uint _, h | .float32, h | .float64, h
  | .string, h | .pointer _, h | .slice _, h | .array _ _, h | .tmap _ _, h
  | .named _, h | .unsupported _, h => by simp [structFieldsOf] at h

theorem processFields_cand_mem (parent : List Nat) (i : Nat) (fs : List FieldI) :
    ∀ c ∈ (processFields parent i fs).1, ∃ fi ∈ fs, c.ty = fi.ty := by
  induction fs generalizing i with
  | nil => intro c hc; simp [processFields] at hc
  | cons fi rest ih =>
      intro c hc
      have htail : ∀ d, d ∈ (processFields parent (i + 1) rest).1 →
          ∃ g ∈ fi :: rest, d.ty = g.ty := by
        intro d hd
        obtain ⟨g, hg, ht⟩ := ih (i + 1) d hd
        exact ⟨g, List.mem_cons_of_mem _ hg, ht⟩
      simp only [processFields] at hc
      split at hc
      · exact htail c hc
      · split at hc
        · exact htail c hc
        · split at hc
          · split at hc
            · exact htail c hc
            · exact htail c hc
          · rcases List.mem_cons.mp hc with heq | hmem
            · exact ⟨fi, List.mem_cons_self _ _, by rw [heq]⟩
            · exact htail c hmem

theorem processFields_queue_mem (parent : List Nat) (i : Nat) (fs : List FieldI) :
    ∀ q ∈ (processFields parent i fs).2, ∃ fi ∈ fs, q.ty = fi.ty := by
  induction fs generalizing i with
  | nil => intro q hq; simp [processFields] at hq
  | cons fi rest ih =>
      intro q hq
      have htail : ∀ d, d ∈ (processFields parent (i + 1) rest).2 →
          ∃ g ∈ fi :: rest, d.ty = g.ty := by
        intro d hd
        obtain ⟨g, hg, ht⟩ := ih (i + 1) d hd
        exact ⟨g, List.mem_cons_of_mem _ hg, ht⟩
      simp only [processFields] at hq
      split at hq
      · exact htail q hq
      · split at hq
        · exact htail q hq
        · split at hq
          · split at hq
            · rcases List.mem_cons.mp hq with heq | hmem
              · exact ⟨fi, List.mem_cons_self _ _, by rw [heq]⟩
              · exact htail q hmem
            · exact htail q hq
          · exact htail q hq

theorem processFields_queue_size (parent : List Nat) (i : Nat) (fs : List FieldI) :
    sumQ (processFields parent i fs).2 ≤ fieldsSize fs := by
  induction fs generalizing i with
  | nil => simp [processFields, sumQ]
  | cons fi rest ih =>
      have hr := ih (i + 1)
      rw [fieldsSize_cons]
      simp only [processFields]
      split
      · omega
      · split
        · omega
        · split
          · split
            · show tySize fi.ty + sumQ (processFields parent (i + 1) rest).2 ≤ _
              omega
            · omega
          · show sumQ (processFields parent (i + 1) rest).2 ≤ _
            omega

theorem sumQ_append (a b : List QItem) : sumQ (a ++ b) = sumQ a + sumQ b := by
  induction a with
  | nil => simp [sumQ]
  | cons q qs ih =>
      show tySize q.ty + sumQ (qs ++ b) = tySize q.ty + sumQ qs + sumQ b
      rw [ih]
      omega

/-- Breadth-first collection of candidates (first phase of
`fieldsToSerialize`): pop a queue item, collect its candidates, enqueue its
embedded structs.  Termination is by the total size of queued types, which
is the reason the Go walk terminates as well. -/
def collectCands : List QItem → List Cand
  | [] => []
  | ⟨ity, iidx⟩ :: rest =>
    match h : structFieldsOf ity with
    | none => collectCands rest
    | some fs =>
      (processFields iidx 0 fs).1 ++ collectCands (rest ++ (processFields iidx 0 fs).2)
termination_by queue => sumQ queue
decreasing_by
  · have := tySize_pos ity
    simp only [sumQ]
    omega
  · have h3 := structFieldsOf_size fs ity h
    have h2 := processFields_queue_size iidx 0 fs
    have h4 := sumQ_append rest (processFields iidx 0 fs).2
    simp only [sumQ]
    omega

/-- One step of the shallowest-level filter loop inside `fieldsToSerialize`:
`visible` keeps only candidates at the least nesting depth seen so far
(the Go loop body, including its dead less-nested branch). -/
def visibleStep (visible : List Cand) (cand : Cand) : List Cand :=
  match visible with
  | [] => [cand]
  | v :: _ =>
    if cand.index.length < v.index.length then [cand]
    else if cand.index.length = v.index.length then visible ++ [cand]
    else visible

def visibleOf (cs : List Cand) : List Cand := cs.foldl visibleStep []

/-- Winner selection once the visible set for a name is known: a single
visible candidate wins; otherwise exactly one explicitly renamed candidate
wins; otherwise the name is dropped. -/
def choose (vis : List Cand) : List Cand :=
  match vis with
  | [c] => [c]
  | _ =>
    if (vis.filter (fun c => c.explicit)).length = 1 then
      vis.filter (fun c => c.explicit)
    else []

def selectForName (cands : List Cand) (n : String) : List Cand :=
  choose (visibleOf (cands.filter (fun c => c.name = n)))

/-- Insertion order of first encounter of each name (the `order` list the Go
code maintains while appending candidates). -/
def dedupFirst : List String → List String
  | [] => []
  | n :: rest => n :: dedupFirst (rest.filter (fun m => m ≠ n))
termination_by l => l.length
decreasing_by
  exact Nat.lt_succ_of_le (List.length_filter_le _ _)

def selectFields (cands : List Cand) : List Cand :=
  (dedupFirst (cands.map (fun c => c.name))).flatMap (selectForName cands)

/-- Model of `fieldsToSerialize`: breadth-first candidate collection followed
by per-name conflict resolution. -/
def fieldsToSerialize (ty : Ty) : List Cand :=
  selectFields (collectCands [⟨ty, []⟩])

theorem visibleStep_mem (visible : List Cand) (cand d : Cand)
    (h : d ∈ visibleStep visible cand) : d ∈ visible ∨ d = cand := by
  unfold visibleStep at h
  split at h
  · simp at h
    exact Or.inr h
  · split at h
    · simp at h
      exact Or.inr h
    · split at h
      · rcases List.mem_append.mp h with hl | hr
        · exact Or.inl hl
        · simp at hr
          exact Or.inr hr
      · exact Or.inl h

theorem foldl_visibleStep_mem (cs : List Cand) (acc : List Cand) (d : Cand)
    (h : d ∈ cs.foldl visibleStep acc) : d ∈ acc ∨ d ∈ cs := by
  induction cs generalizing acc with
  | nil => exact Or.inl h
  | cons c rest ih =>
      rcases ih (visibleStep acc c) h with hacc | hrest
      · rcases visibleStep_mem acc c d hacc with hl | hr
        · exact Or.inl hl
        · exact Or.inr (by simp [hr])
      · exact Or.inr (List.mem_cons_of_mem _ hrest)

theorem visibleOf_mem (cs : List Cand) (d : Cand) (h : d ∈ visibleOf cs) :
    d ∈ cs := by
  rcases foldl_visibleStep_mem cs [] d h with hl | hr
  · cases hl
  · exact hr

theorem choose_mem (vis : List Cand) (d : Cand) (h : d ∈ choose vis) :
    d ∈ vis := by
  unfold choose at h
  split at h
  · exact h
  · split at h
    · exact List.mem_of_mem_filter h
    · cases h

theorem selectFields_mem (cands : List Cand) (d : Cand)
    (h : d ∈ selectFields cands) : d ∈ cands := by
  unfold selectFields at h
  rcases List.mem_flatMap.mp h with ⟨n, _, hd⟩
  exact List.mem_of_mem_filter (visibleOf_mem _ _ (choose_mem _ _ hd))

theorem collectCands_mem :
    ∀ (queue : List QItem) (c : Cand), c ∈ collectCands queue →
      ∃ q ∈ queue, tySize c.ty < tySize q.ty := by
  intro queue
  induction queue using collectCands.induct with
  | case1 => intro c hc; simp [collectCands] at hc
  | case2 ity iidx rest hnone ih =>
      intro c hc
      rw [collectCands, hnone] at hc
      obtain ⟨q, hq, hlt⟩ := ih c hc
      exact ⟨q, List.mem_cons_of_mem _ hq, hlt⟩
  | case3 ity iidx rest fs hsome ih =>
      intro c hc
      rw [collectCands, hsome] at hc
      rcases List.mem_append.mp hc with hhead | htail
      · obtain ⟨fi, hfi, hty⟩ := processFields_cand_mem iidx 0 fs c hhead
        refine ⟨⟨ity, iidx⟩, List.mem_cons_self _ _, ?_⟩
        rw [hty]
        have h1 := fieldsSize_le fi fs hfi
        have h2 := structFieldsOf_size fs ity hsome
        simp only
        omega
      · obtain ⟨q, hq, hlt⟩ := ih c htail
        rcases List.mem_append.mp hq with hr | hnew
        · exact ⟨q, List.mem_cons_of_mem _ hr, hlt⟩
        · obtain ⟨fi, hfi, hty⟩ := processFields_queue_mem iidx 0 fs q hnew
          refine ⟨⟨ity, iidx⟩, List.mem_cons_self _ _, ?_⟩
          have h1 := fieldsSize_le fi fs hfi
          have h2 := structFieldsOf_size fs ity hsome
          rw [hty] at hlt
          simp only
          omega

theorem fieldsToSerialize_ty_lt (ty : Ty) (c : Cand)
    (h : c ∈ fieldsToSerialize ty) : tySize c.ty < tySize ty := by
  obtain ⟨q, hq, hlt⟩ :=
    collectCands_mem [⟨ty, []⟩] c (selectFields_mem _ _ h)
  simp at hq
  rw [hq] at hlt
  exact hlt

/-- Number of environment entries not yet marked in-construction; together
with the type size this bounds the compile recursion. -/
def restCount : Env → List String → Nat
  | [], _ => 0
  | p :: rest, inC =>
    match inList p.1 inC with
    | true => restCount rest inC
    | false => 1 + restCount rest inC

theorem restCount_mono (env : Env) (inC : List String) (n : String) :
    restCount env (n :: inC) ≤ restCount env inC := by
  induction env with
  | nil => simp [restCount]
  | cons p rest ih =>
      simp only [restCount]
      cases hc : inList p.1 inC with
      | true =>
          have hc2 : inList p.1 (n :: inC) = true := by simp [inList, hc]
          simp only [hc2]
          exact ih
      | false =>
          cases hc2 : inList p.1 (n :: inC) with
          | true => simp only [hc2]; omega
          | false => simp only [hc2]; omega

theorem restCount_lt (env : Env) (inC : List String) (n : String) (t : Ty)
    (hfind : lookupEnv env n = some t) (hnot : inList n inC = false) :
    restCount env (n :: inC) < restCount env inC := by
  induction env with
  | nil => simp [lookupEnv] at hfind
  | cons p rest ih =>
      simp only [lookupEnv] at hfind
      by_cases hb : (p.1 == n) = true
      · have hpn : p.1 = n := by simpa using hb
        have hmono := restCount_mono rest inC n
        simp only [restCount]
        have h1 : inList p.1 (n :: inC) = true := by simp [inList, hpn]
        have h2 : inList p.1 inC = false := by rw [hpn]; exact hnot
        simp only [h1, h2]
        omega
      · rw [if_neg hb] at hfind
        have hlt := ih hfind
        have hn : (n == p.1) = false := by
          rw [beq_eq_false_iff_ne]
          intro h
          exact hb (by simp [h])
        have hsame : inList p.1 (n :: inC) = inList p.1 inC := by
          simp [inList, hn]
        simp only [restCount, hsame]
        cases hc : inList p.1 inC <;> simp only [hc] <;> omega

/-- Largest field-type size in a candidate list, used only as a termination
measure for the compile phase. -/
def maxSize : List Cand → Nat
  | [] => 0
  | c :: rest => Nat.max (tySize c.ty) (maxSize rest)

theorem maxSize_lt (l : List Cand) (b : Nat) (hb : 1 ≤ b)
    (h : ∀ c ∈ l, tySize c.ty < b) : maxSize l < b := by
  induction l with
  | nil => simpa [maxSize] using hb
  | cons c rest ih =>
      simp only [maxSize]
      exact Nat.max_lt.mpr
        ⟨h c (List.mem_cons_self _ _), ih (fun d hd => h d (List.mem_cons_of_mem _ hd))⟩

mutual
/-- Model of `setterOf`/`makeSetterOf`, the compile phase: `inC` is the
`inConstruction` set.  Compilation of a `named` type already being compiled
returns the lazily-bound setter, hence succeeds immediately; a struct type
compiles one nested setter per resolved field, wrapping failures with the
field name; unsupported kinds fail with `NotSupportedError`.  This function
is total: its acceptance by the termination checker mirrors the termination
of the Go compile. -/
def setterOk (env : Env) (inC : List String) : Ty → Except GoErr Unit
  | .withTextUnmarshal _ _ => .ok ()
  | .bool => .ok ()
  | .int _ => .ok ()
  | .uint _ => .ok ()
  | .float32 => .ok ()
  | .float64 => .ok ()
  | .string => .ok ()
  | .pointer t => setterOk env inC t
  | .struct fs => setterOkFields env inC (fieldsToSerialize (.struct fs))
  | .slice t =>
    match setterOk env inC t with
    | .error e => .error (.wrap ("setter for element type") e)
    | .ok _ => .ok ()
  | .array _ t =>
    match setterOk env inC t with
    | .error e => .error (.wrap ("setter for element type") e)
    | .ok _ => .ok ()
  | .tmap k v =>
    match setterOk env inC k with
    | .error e => .error (.wrap ("setter for key type") e)
    | .ok _ =>
      match setterOk env inC v with
      | .error e => .error (.wrap ("setter for value type") e)
      | .ok _ => .ok ()
  | .named n =>
    if h : inList n inC then .ok ()
    else
      match hf : lookupEnv env n with
      | some t => setterOk env (n :: inC) t
      | none => .error (.notSupported n)
  | .unsupported d => .error (.notSupported d)
termination_by ty => (restCount env inC, 2 * tySize ty, 0)
decreasing_by
  · apply Prod.Lex.right
    apply Prod.Lex.left
    simp only [tySize]
    omega
  · apply Prod.Lex.right
    apply Prod.Lex.left
    have h1 : maxSize (fieldsToSerialize (.struct fs)) < tySize (.struct fs) :=
      maxSize_lt _ _ (tySize_pos _) (fun c hc => fieldsToSerialize_ty_lt _ c hc)
    omega
  · apply Prod.Lex.right
    apply Prod.Lex.left
    simp only [tySize]
    omega
  · apply Prod.Lex.right
    apply Prod.Lex.left
    simp only [tySize]
    omega
  · apply Prod.Lex.right
    apply Prod.Lex.left
    simp only [tySize]
    omega
  · apply Prod.Lex.right
    apply Prod.Lex.left
    simp only [tySize]
    omega
  · apply Prod.Lex.left
    exact restCount_lt env inC n t hf (by simpa using h)
/-- Per-field compile loop of `makeSetStruct`. -/
def setterOkFields (env : Env) (inC : List String) : List Cand → Except GoErr Unit
  | [] => .ok ()
  | c :: rest =>
    match setterOk env inC c.ty with
    | .error e => .error (.wrap (("setter for field ") ++ c.name) e)
    | .ok _ => setterOkFields env inC rest
termination_by fds => (restCount env inC, 2 * maxSize fds + 1, fds.length)
decreasing_by
  · apply Prod.Lex.right
    apply Prod.Lex.left
    rename_i tl
    have h1 : tySize v.ty ≤ maxSize (v :: tl) := Nat.le_max_left _ _
    omega
  · rename_i tl
    have hm : maxSize tl ≤ maxSize (v :: tl) := Nat.le_max_right _ _
    rcases Nat.lt_or_ge (maxSize tl) (maxSize (v :: tl)) with hl | hg
    · apply Prod.Lex.right
      apply Prod.Lex.left
      omega
    · have heq : maxSize tl = maxSize (v :: tl) := Nat.le_antisymm hm hg
      apply Prod.Lex.right
      rw [heq]
      apply Prod.Lex.right
      simp
end

def envSizeSum : Env → Nat
  | [] => 0
  | p :: rest => tySize p.2 + 1 + envSizeSum rest

/-- Fueled computation of the zero value of a type (`reflect.New(ty).Elem()`),
resolving named references through the environment. -/
def zeroValueF (env : Env) : Nat → Ty → TValue
  | 0, _ => .vstruct []
  | Nat.succ k, ty =>
    match ty with
    | .bool => .vbool false
    | .int _ => .vint 0
    | .uint _ => .vuint 0
    | .float32 => .vfloat 0
    | .float64 => .vfloat 0
    | .string => .vstr ""
    | .pointer _ => .vptr none
    | .struct fs => .vstruct (fs.map (fun f => zeroValueF env k f.ty))
    | .slice _ => .vslice []
    | .array n t => .varray (List.replicate n (zeroValueF env k t))
    | .tmap _ _ => .vmap []
    | .withTextUnmarshal _ t => zeroValueF env k t
    | .named n =>
      match lookupEnv env n with
      | some t => zeroValueF env k t
      | none => .vstruct []
    | .unsupported _ => .vstruct []

/-- Zero value with a recursion budget large enough for every legal Go type
graph (zero construction stops at pointers, slices and maps, so only
struct/array nesting and named unfolding consume budget). -/
def zeroOf (env : Env) (ty : Ty) : TValue :=
  zeroValueF env (tySize ty + (env.length + 1) * (envSizeSum env + 1)) ty

/-- Model of `reflect.Value.FieldByIndex` reads. -/
def getPath : TValue → List Nat → Option TValue
  | v, [] => some v
  | .vstruct fs, i :: rest =>
    match fs.get? i with
    | some f => getPath f rest
    | none => none
  | _, _ :: _ => none

/-- Functional update at a field index path, the write-back view of mutating
the `reflect.Value` returned by `FieldByIndex`. -/
def setPath : TValue → List Nat → TValue → TValue
  | _, [], nv => nv
  | .vstruct fs, i :: rest, nv =>
    match fs.get? i with
    | some f => .vstruct (fs.set i (setPath f rest nv))
    | none => .vstruct fs
  | v, _ :: _, _ => v

def arrGet : TValue → Nat → Option TValue
  | .varray es, i => es.get? i
  | _, _ => none

def arrSet : TValue → Nat → TValue → TValue
  | .varray es, i, v => .varray (es.set i v)
  | t, _, _ => t

def sliceElems : TValue → List TValue
  | .vslice es => es
  | _ => []

/-- `reflect.Value.SetMapIndex`: insert or overwrite a key. -/
def upsert : List (TValue × TValue) → TValue → TValue → List (TValue × TValue)
  | [], k, v => [(k, v)]
  | (k0, v0) :: rest, k, v =>
    if TValue.beqv k0 k then (k, v) :: rest
    else (k0, v0) :: upsert rest k v

/-- Model of `setBool`. -/
def setBool (src : Src σ) (st : σ) (tgt : TValue) : TValue × σ × Option GoErr :=
  match src.sBool st with
  | (.error e, st2) => (tgt, st2, some (.wrap ("get bool value") e))
  | (.ok b, st2) => (.vbool b, st2, none)

/-- Generic-path half of `setInt`: fall over to `SourceValue.Int`. -/
def setIntGeneric (w : IntW) (src : Src σ) (st : σ) (tgt : TValue) :
    TValue × σ × Option GoErr :=
  match src.sInt st with
  | (.error e, st2) => (tgt, st2, some (.wrap ("get int value") e))
  | (.ok v, st2) => (.vint (truncInt w v), st2, none)

/-- Exact-width signed accessor chosen by `setInt`'s kind switch. -/
def sizedIntGet (ops : SizedSrc σ) : IntW → σ → Except GoErr Int × σ
  | .w8, st => ops.i8 st
  | .w16, st => ops.i16 st
  | .w32, st => ops.i32 st
  | .w64, st => ops.i64 st
  | .word, st => (.error .invalidType, st)

def sizedIntMsg : IntW → String
  | .w8 => "get int8 value"
  | .w16 => "get int16 value"
  | .w32 => "get int32 value"
  | .w64 => "get int64 value"
  | .word => ""

/-- Model of `setInt`: prefer the `IntSourceValue` capability for exact
widths, fall over to the generic accessor otherwise (including for the
word-sized kind, the switch's default branch). -/
def setInt (w : IntW) (src : Src σ) (st : σ) (tgt : TValue) :
    TValue × σ × Option GoErr :=
  match src.sized with
  | some ops =>
    match w with
    | .word => setIntGeneric w src st tgt
    | _ =>
      match sizedIntGet ops w st with
      | (.error e, st2) => (tgt, st2, some (.wrap (sizedIntMsg w) e))
      | (.ok v, st2) => (.vint (truncInt w v), st2, none)
  | none => setIntGeneric w src st tgt

/-- Generic-path half of `setUint`: `SourceValue.Int` plus the sign check. -/
def setUintGeneric (w : IntW) (src : Src σ) (st : σ) (tgt : TValue) :
    TValue × σ × Option GoErr :=
  match src.sInt st with
  | (.error e, st2) => (tgt, st2, some (.wrap ("get int value") e))
  | (.ok v, st2) =>
    if v < 0 then (tgt, st2, some (.txt (("invalid uint value ") ++ toString v)))
    else (.vuint (truncNat w v.toNat), st2, none)

def sizedUintGet (ops : SizedSrc σ) : IntW → σ → Except GoErr Nat × σ
  | .w8, st => ops.u8 st
  | .w16, st => ops.u16 st
  | .w32, st => ops.u32 st
  | .w64, st => ops.u64 st
  | .word, st => (.error .invalidType, st)

/-- Error prefixes of the unsigned sized branches; the Go code reuses the
signed width names in these messages. -/
def sizedUintMsg : IntW → String
  | .w8 => "get int8 value"
  | .w16 => "get int16 value"
  | .w32 => "get int32 value"
  | .w64 => "get int64 value"
  | .word => ""

/-- Model of `setUint`. -/
def setUint (w : IntW) (src : Src σ) (st : σ) (tgt : TValue) :
    TValue × σ × Option GoErr :=
  match src.sized with
  | some ops =>
    match w with
    | .word => setUintGeneric w src st tgt
    | _ =>
      match sizedUintGet ops w st with
      | (.error e, st2) => (tgt, st2, some (.wrap (sizedUintMsg w) e))
      | (.ok v, st2) => (.vuint (truncNat w v), st2, none)
  | none => setUintGeneric w src st tgt

/-- Model of `setFloat`. -/
def setFloat (src : Src σ) (st : σ) (tgt : TValue) : TValue × σ × Option GoErr :=
  match src.sFloat st with
  | (.error e, st2) => (tgt, st2, some (.wrap ("get float value") e))
  | (.ok v, st2) => (.vfloat v, st2, none)

/-- Model of `setString`. -/
def setString (src : Src σ) (st : σ) (tgt : TValue) : TValue × σ × Option GoErr :=
  match src.sStr st with
  | (.error e, st2) => (tgt, st2, some (.wrap ("get string value") e))
  | (.ok s, st2) => (.vstr s, st2, none)

/-- Model of `setTextUnmarshaler`: read the node as a string and delegate to
the type's own `UnmarshalText`, whose error is returned unwrapped. -/
def setTextUnmarshaler (parse : String → TValue → TValue × Option GoErr)
    (src : Src σ) (st : σ) (tgt : TValue) : TValue × σ × Option GoErr :=
  match src.sStr st with
  | (.error e, st2) => (tgt, st2, some (.wrap ("get string value") e))
  | (.ok text, st2) =>
    match parse text tgt with
    | (v, err) => (v, st2, err)

mutual
/-- Runtime behaviour of the compiled setter for a type: dispatch mirrors
`makeSetterOf` (text-unmarshaler check first, then the kind switch).  The
result is `some (newTarget, newState, err?)`, where `newTarget` reflects the
in-place writes performed before any error; `none` means the fuel budget ran
out.  A `named` type resolves through the environment, which is the runtime
behaviour of the lazily-bound cycle setter re-reading the finished cache. -/
def setValue (env : Env) : Nat → Ty → Src σ → σ → TValue →
    Option (TValue × σ × Option GoErr)
  | 0, _, _, _, _ => none
  | Nat.succ f, ty, src, st, tgt =>
    match ty with
    | .withTextUnmarshal parse _ => some (setTextUnmarshaler parse src st tgt)
    | .bool => some (setBool src st tgt)
    | .int w => some (setInt w src st tgt)
    | .uint w => some (setUint w src st tgt)
    | .float32 => some (setFloat src st tgt)
    | .float64 => some (setFloat src st tgt)
    | .string => some (setString src st tgt)
    | .pointer t =>
      match setValue env f t src st (zeroOf env t) with
      | none => none
      | some (_, st2, some e) => some (tgt, st2, some e)
      | some (pv, st2, none) => some (.vptr (some pv), st2, none)
    | .struct fs =>
      match src.child with
      | none => some (tgt, st, some .invalidType)
      | some getC => setStructFields env f (fieldsToSerialize (.struct fs)) getC st tgt
    | .slice t =>
      match src.seqC with
      | none => some (tgt, st, some .invalidType)
      | some sq =>
        match sq.1 st with
        | (.error e, st2) => some (tgt, st2, some (.wrap ("as iter") e))
        | (.ok _, st2) => setSliceElems env f t sq.2 st2 tgt
    | .array n t =>
      match src.seqC with
      | none => some (tgt, st, some .invalidType)
      | some sq =>
        match sq.1 st with
        | (.error e, st2) => some (tgt, st2, some (.wrap ("as iter") e))
        | (.ok _, st2) => setArrayElems env f t sq.2 0 n st2 tgt
    | .tmap k v =>
      match src.kvs with
      | none => some (tgt, st, some .invalidType)
      | some getKVs =>
        match getKVs st with
        | (.error e, st2) => some (tgt, st2, some (.wrap ("iterate key/value pairs") e))
        | (.ok pairs, st2) => setMapPairs env f k v pairs st2 tgt []
    | .named n =>
      match lookupEnv env n with
      | none => some (tgt, st, some (.notSupported n))
      | some t => setValue env f t src st tgt
    | .unsupported d => some (tgt, st, some (.notSupported d))
/-- Decode loop of `makeSetStruct`: `Get` each resolved field, skip it on
`ErrNoValue`, abort on any other lookup failure or nested setter failure
(wrapping with the field name), write successful results back through the
field index path. -/
def setStructFields (env : Env) : Nat → List Cand →
    (σ → String → Except GoErr (Src σ) × σ) → σ → TValue →
    Option (TValue × σ × Option GoErr)
  | 0, _, _, _, _ => none
  | Nat.succ _, [], _, st, tgt => some (tgt, st, none)
  | Nat.succ f, c :: rest, getC, st, tgt =>
    match getC st c.name with
    | (.error e, st2) =>
      if e.isNoValue then setStructFields env f rest getC st2 tgt
      else some (tgt, st2, some (.wrap (("lookup child ") ++ c.name) e))
    | (.ok childSrc, st2) =>
      match setValue env f c.ty childSrc st2 ((getPath tgt c.index).getD (zeroOf env c.ty)) with
      | none => none
      | some (fv, st3, some e) =>
          some (setPath tgt c.index fv, st3, some (.wrap (("set field ") ++ c.name) e))
      | some (fv, st3, none) =>
          setStructFields env f rest getC st3 (setPath tgt c.index fv)
/-- Decode loop of `makeSetSlice`: per source element, append a zero
placeholder and decode into the new last slot. -/
def setSliceElems (env : Env) : Nat → Ty → (σ → Option (Src σ) × σ) → σ → TValue →
    Option (TValue × σ × Option GoErr)
  | 0, _, _, _, _ => none
  | Nat.succ f, t, pull, st, tgt =>
    match pull st with
    | (none, st2) => some (tgt, st2, none)
    | (some esrc, st2) =>
      match setValue env f t esrc st2 (zeroOf env t) with
      | none => none
      | some (ev, st3, some e) =>
          some (.vslice (sliceElems tgt ++ [ev]), st3,
            some (.wrap (("set element idx=") ++ toString (sliceElems tgt).length) e))
      | some (ev, st3, none) =>
          setSliceElems env f t pull st3 (.vslice (sliceElems tgt ++ [ev]))
/-- Decode loop of `makeSetArray`: pull at most `rem` elements, stop early
when the source is exhausted, leave the remaining slots untouched. -/
def setArrayElems (env : Env) : Nat → Ty → (σ → Option (Src σ) × σ) → Nat → Nat →
    σ → TValue → Option (TValue × σ × Option GoErr)
  | 0, _, _, _, _, _, _ => none
  | Nat.succ _, _, _, _, 0, st, tgt => some (tgt, st, none)
  | Nat.succ f, t, pull, idx, Nat.succ rem2, st, tgt =>
    match pull st with
    | (none, st2) => some (tgt, st2, none)
    | (some esrc, st2) =>
      match setValue env f t esrc st2 ((arrGet tgt idx).getD (zeroOf env t)) with
      | none => none
      | some (ev, st3, some e) =>
          some (arrSet tgt idx ev, st3, some (.wrap (("set element idx=") ++ toString idx) e))
      | some (ev, st3, none) =>
          setArrayElems env f t pull (idx + 1) rem2 st3 (arrSet tgt idx ev)
/-- Decode loop of `makeSetMap`: decode each key and value into fresh zero
targets, inserting into a freshly allocated map that replaces the target only
on full success. -/
def setMapPairs (env : Env) : Nat → Ty → Ty → List (Src σ × Src σ) → σ → TValue →
    List (TValue × TValue) → Option (TValue × σ × Option GoErr)
  | 0, _, _, _, _, _, _ => none
  | Nat.succ _, _, _, [], st, _, acc => some (.vmap acc, st, none)
  | Nat.succ f, k, v, (ks, vs) :: rest, st, tgt, acc =>
    match setValue env f k ks st (zeroOf env k) with
    | none => none
    | some (_, st2, some e) => some (tgt, st2, some (.wrap ("set key") e))
    | some (kv, st2, none) =>
      match setValue env f v vs st2 (zeroOf env v) with
      | none => none
      | some (_, st3, some e) => some (tgt, st3, some (.wrap ("set key") e))
      | some (vv, st3, none) =>
          setMapPairs env f k v rest st3 tgt (upsert acc kv vv)
end

/-- Model of `Unmarshal`: compile the setter for the target type (failures
surface before any decoding) and apply it to the source. -/
def Unmarshal (env : Env) (fuel : Nat) (ty : Ty) (src : Src σ) (st : σ)
    (tgt : TValue) : Option (TValue × σ × Option GoErr) :=
  match setterOk env [] ty with
  | .error e => some (tgt, st, some e)
  | .ok _ => setValue env fuel ty src st tgt

/-- Model of `UnmarshalNew`: decode into a fresh zero value. -/
def UnmarshalNew (env : Env) (fuel : Nat) (ty : Ty) (src : Src σ) (st : σ) :
    Option (TValue × σ × Option GoErr) :=
  Unmarshal env fuel ty src st (zeroOf env ty)

/-- A pure tree-shaped data source (stateless: `σ = Unit`), conforming to
the `SourceValue` contract: a node serves `Get` from its child list and
returns `ErrNoValue` for a missing key; leaves serve one scalar and fail the
others with `ErrInvalidType`. -/
inductive Tree where
  | leafS (s : String)
  | leafI (v : Int)
  | node (children : List (String × Tree))

def treeGet : List (String × Src Unit) → String → Except GoErr (Src Unit)
  | [], _ => .error .noValue
  | (m, s) :: rest, k => if m == k then .ok s else treeGet rest k

mutual
def treeSrc : Tree → Src Unit
  | .leafS s => .mk (fun u => (.error .invalidType, u)) (fun u => (.error .invalidType, u))
      (fun u => (.error .invalidType, u)) (fun u => (.ok s, u)) none none none none
  | .leafI v => .mk (fun u => (.error .invalidType, u)) (fun u => (.ok v, u))
      (fun u => (.error .invalidType, u)) (fun u => (.error .invalidType, u)) none none none none
  | .node cs => .mk (fun u => (.error .invalidType, u)) (fun u => (.error .invalidType, u))
      (fun u => (.error .invalidType, u)) (fun u => (.error .invalidType, u))
      (some (fun u k => (treeGet (treeChildren cs) k, u))) none none none
def treeChildren : List (String × Tree) → List (String × Src Unit)
  | [] => []
  | (m, t) :: rest => (m, treeSrc t) :: treeChildren rest
end

/-- A stateless scalar string element, as yielded by a sequence source. -/
def strScalarSrcL (s : String) : Src (List String) :=
  .mk (fun st => (.error .invalidType, st)) (fun st => (.error .invalidType, st))
    (fun st => (.error .invalidType, st)) (fun st => (.ok s, st)) none none none none

/-- Pull function of the string-sequence source: the state is the list of
elements still to be yielded. -/
def strSeqPull : List String → Option (Src (List String)) × List String
  | [] => (none, [])
  | e :: rest => (some (strScalarSrcL e), rest)

/-- A sequence source over the remaining-elements state. -/
def strSeqSrc : Src (List String) :=
  .mk (fun st => (.error .invalidType, st)) (fun st => (.error .invalidType, st))
    (fun st => (.error .invalidType, st)) (fun st => (.error .invalidType, st))
    none
    (some (fun st => (.ok (), st), strSeqPull))
    none none

/-- Little-endian value of `w` bytes starting at cursor `p`. -/
def readLE (bytes : List Nat) : Nat → Nat → Nat
  | _, 0 => 0
  | p, Nat.succ w => bytes.getD p 0 + 256 * readLE bytes (p + 1) w

/-- Unsigned fixed-width read against a byte cursor (the `binary.LittleEndian`
reads of the test binary source); fails like `io.Reader` at end of input. -/
def binReadU (bytes : List Nat) (w : Nat) (p : Nat) : Except GoErr Nat × Nat :=
  if p + w ≤ bytes.length then (.ok (readLE bytes p w), p + w)
  else (.error (.txt ("EOF")), p)

/-- Signed fixed-width read: the two's-complement reinterpretation
`intN(LittleEndian.UintN(...))`. -/
def binReadI (bytes : List Nat) (w : Nat) (p : Nat) : Except GoErr Int × Nat :=
  match binReadU bytes w p with
  | (.ok v, p2) => (.ok (Int.bmod v (2 ^ (8 * w))), p2)
  | (.error e, p2) => (.error e, p2)

def binSized (bytes : List Nat) : SizedSrc Nat :=
  ⟨binReadI bytes 1, binReadI bytes 2, binReadI bytes 4, binReadI bytes 8,
   binReadU bytes 1, binReadU bytes 2, binReadU bytes 4, binReadU bytes 8⟩

def binBool (bytes : List Nat) (p : Nat) : Except GoErr Bool × Nat :=
  match binReadU bytes 1 p with
  | (.ok v, p2) => (.ok (v != 0), p2)
  | (.error e, p2) => (.error e, p2)

/-- Length-prefixed string read of the binary source: an int32 byte count
followed by that many bytes. -/
def binStr (bytes : List Nat) (p : Nat) : Except GoErr String × Nat :=
  match binReadI bytes 4 p with
  | (.error e, p2) => (.error e, p2)
  | (.ok n, p2) =>
    if p2 + n.toNat ≤ bytes.length then
      (.ok (String.mk (((bytes.drop p2).take n.toNat).map Char.ofNat)), p2 + n.toNat)
    else (.error (.txt ("EOF")), p2)

/-- The binary little-endian stream source over a byte-cursor state: generic
`Int`/`Float` fail with `ErrInvalidType`, the sized-integer capability reads
exact widths, `Get` returns the source itself with the cursor untouched, and
`Iter` yields the source itself forever.  The Go value returns itself from
`Get`/`Iter`; that knot is represented by a depth index, `binSrc bytes d`
behaving identically for any decode nesting containers at most `d` deep. -/
def binSrc (bytes : List Nat) : Nat → Src Nat
  | 0 => .mk (binBool bytes) (fun p => (.error .invalidType, p))
      (fun p => (.error .invalidType, p)) (binStr bytes) none none none
      (some (binSized bytes))
  | Nat.succ d => .mk (binBool bytes) (fun p => (.error .invalidType, p))
      (fun p => (.error .invalidType, p)) (binStr bytes)
      (some (fun p _ => (.ok (binSrc bytes d), p)))
      (some (fun p => (.ok (), p), fun p => (some (binSrc bytes d), p)))
      none (some (binSized bytes))

/-- Shorthand for a plain exported, non-embedded, untagged field. -/
def fld (n : String) (t : Ty) : FieldI := .mk n "" true false t

/-- The embedded struct of the naming-conflict scenarios (`First`/`Second`
with a plain field `A`). -/
def tyFirstA : Ty := .struct [fld "A" .string]

/-- Two embedded structs contributing the same plain name `A` at the same
depth (`TestNaming_EmbeddedNamingConflict`). -/
def tyConflict : Ty :=
  .struct [.mk "First" "" true true tyFirstA, .mk "Second" "" true true tyFirstA]

/-- Variant whose `Second.A` carries the explicit rename tag `A`. -/
def tySecondExp : Ty := .struct [.mk "A" "A" true false .string]

/-- Conflict scenario where exactly one of the tied candidates is explicit
(`TestNaming_EmbeddedNamingExplicitWinsOnSameNesting`). -/
def tyExplicitWin : Ty :=
  .struct [.mk "First" "" true true tyFirstA, .mk "Second" "" true true tySecondExp]

def treeA : Tree := .node [("A", .leafS "A")]

/-- The self-referential `GitCommit` struct: a string plus a pointer to the
same named type. -/
def gitTy : Ty :=
  .struct [fld "Sha1" .string, fld "Parent" (.pointer (.named "GitCommit"))]

def gitEnv : Env := [("GitCommit", gitTy)]

/-- A three-deep commit chain whose innermost node has no `Parent` child. -/
def gitChain : Tree :=
  .node [("Sha1", .leafS "aaaa"),
    ("Parent", .node [("Sha1", .leafS "bbbb"),
      ("Parent", .node [("Sha1", .leafS "cccc")])])]

def gitExpected : TValue :=
  .vstruct [.vstr "aaaa",
    .vptr (some (.vstruct [.vstr "bbbb",
      .vptr (some (.vstruct [.vstr "cccc", .vptr none]))]))]

/-- The sequential sized-integer struct of `TestBinarySourceValue`,
restricted to the four signed fields named in the specification scenario. -/
def tyBin : Ty :=
  .struct [fld "Int8" (.int .w8), fld "Int16" (.int .w16),
           fld "Int32" (.int .w32), fld "Int64" (.int .w64)]

def bytes16 : List Nat := [0, 1, 2, 3, 4, 5, 6, 7, 8, 9, 10, 11, 12, 13, 14, 15]

/-- The unsigned counterpart struct, with fields of exact widths 8/16/32/64
(the `Uint8`..`Uint64` fields of `TestBinarySourceValue`). -/
def tyBinU : Ty :=
  .struct [fld "Uint8" (.uint .w8), fld "Uint16" (.uint .w16),
           fld "Uint32" (.uint .w32), fld "Uint64" (.uint .w64)]

/-- A struct with a single pointer field, for the nil-on-absent scenario. -/
def tyHost : Ty := .struct [fld "P" (.pointer tyFirstA)]

/-- An exported embedded pointer-to-struct without a tag
(`TestNaming_NoEmbeddingWithPointer`). -/
def tyPtrEmbed : Ty := .struct [.mk "First" "" true true (.pointer tyFirstA)]

/-- A container whose `Get` always fails with an error other than
`ErrNoValue`. -/
def boomGet : Unit → String → Except GoErr (Src Unit) × Unit :=
  fun u _ => (.error (.txt ("boom")), u)

theorem take_set_succ {α : Type} (l : List α) (i : Nat) (v : α) (h : i < l.length) :
    (l.set i v).take (i + 1) = l.take i ++ [v] := by
  induction l generalizing i with
  | nil => simp at h
  | cons a rest ih =>
      cases i with
      | zero => simp
      | succ i2 =>
          simp only [List.set]
          simp only [List.take_succ_cons]
          rw [ih i2 (by simpa using h)]
          simp

theorem drop_set_of_lt {α : Type} (l : List α) (i j : Nat) (v : α) (h : i < j) :
    (l.set i v).drop j = l.drop j := by
  induction l generalizing i j with
  | nil => simp
  | cons a rest ih =>
      cases i with
      | zero =>
          cases j with
          | zero => omega
          | succ j2 => simp
      | succ i2 =>
          cases j with
          | zero => omega
          | succ j2 =>
              simp only [List.set, List.drop_succ_cons]
              exact ih i2 j2 (by omega)

theorem setValue_string_scalar (env : Env) (f : Nat) (s : String)
    (st : List String) (tgt : TValue) :
    setValue env (f + 1) .string (strScalarSrcL s) st tgt = some (.vstr s, st, none) := by
  simp [setValue, setString, strScalarSrcL, Src.sStr]

/-- Behaviour of the fixed-array decode loop against the string-sequence
source: the first `min rem (els.length)` slots starting at `idx` are
overwritten in order, the rest of the array and the unpulled elements are
untouched. -/
theorem setArrayElems_strSeq (k : Nat) :
    ∀ (rem idx : Nat) (els : List String) (arr : List TValue),
      idx + rem ≤ arr.length →
      setArrayElems [] (rem + k + 1) .string strSeqPull idx rem els (.varray arr) =
        some (.varray (arr.take idx ++ (els.take rem).map TValue.vstr ++
          arr.drop (idx + min rem els.length)), els.drop rem, none) := by
  intro rem
  induction rem with
  | zero =>
      intro idx els arr h
      show setArrayElems [] (k + 1) .string strSeqPull idx 0 els (.varray arr) = _
      simp [setArrayElems, List.take_append_drop]
  | succ rem ih =>
      intro idx els arr h
      have hfuel : rem + 1 + k + 1 = (rem + k + 1) + 1 := by omega
      rw [hfuel]
      cases els with
      | nil =>
          simp [setArrayElems, strSeqPull, List.take_append_drop]
      | cons e erest =>
          simp only [setArrayElems, strSeqPull]
          rw [setValue_string_scalar]
          simp only [arrSet]
          rw [ih (idx + 1) erest (arr.set idx (.vstr e)) (by simp; omega)]
          have hlt : idx < arr.length := by omega
          rw [take_set_succ arr idx (.vstr e) hlt]
          rw [drop_set_of_lt arr idx (idx + 1 + min rem erest.length) (.vstr e) (by omega)]
          have hmin : min (rem + 1) (erest.length + 1) = min rem erest.length + 1 :=
            Nat.succ_min_succ rem erest.length
          have hidx : idx + 1 + min rem erest.length =
              idx + (min rem erest.length + 1) := by omega
          rw [hidx]
          simp [hmin]

/-- Behaviour of the slice decode loop against the string-sequence source:
one element is appended per yielded source element. -/
theorem setSliceElems_strSeq (k : Nat) :
    ∀ (els : List String) (acc : List TValue),
      setSliceElems [] (els.length + k + 1) .string strSeqPull els (.vslice acc) =
        some (.vslice (acc ++ els.map TValue.vstr), [], none) := by
  intro els
  induction els with
  | nil =>
      intro acc
      show setSliceElems [] (k + 1) .string strSeqPull [] (.vslice acc) = _
      simp [setSliceElems, strSeqPull]
  | cons e erest ih =>
      intro acc
      have hfuel : (e :: erest).length + k + 1 = (erest.length + k + 1) + 1 := by
        simp only [List.length_cons]
        omega
      rw [hfuel]
      rw [setSliceElems]
      simp only [strSeqPull]
      rw [setValue_string_scalar]
      simp only [sliceElems]
      rw [ih (acc ++ [TValue.vstr e])]
      simp

/-- C1.  For every struct target whose field resolution finds multiple
candidates with the same resolved name at the same (shallowest) depth:
if exactly one of the tied candidates carries an explicit rename, that
candidate alone is selected; otherwise the name is ambiguous and no candidate
is selected (first conjunct, over every candidate list).  Concretely, the
two-embedded-structs conflict type resolves to no fields and decodes every
target field to its zero value, while the variant with exactly one explicit
rename resolves to that candidate alone and decodes only it (remaining
conjuncts, mirroring `TestNaming_EmbeddedNamingConflict` and
`TestNaming_EmbeddedNamingExplicitWinsOnSameNesting`). -/
theorem c1_same_depth_conflict_resolution :
    (∀ cs : List Cand, 2 ≤ (visibleOf cs).length →
      (((visibleOf cs).filter (fun c => c.explicit)).length = 1 →
        choose (visibleOf cs) = (visibleOf cs).filter (fun c => c.explicit)) ∧
      (((visibleOf cs).filter (fun c => c.explicit)).length ≠ 1 →
        choose (visibleOf cs) = [])) ∧
    fieldsToSerialize tyConflict = [] ∧
    UnmarshalNew [] 10 tyConflict (treeSrc treeA) () =
      some (.vstruct [.vstruct [.vstr ""], .vstruct [.vstr ""]], (), none) ∧
    fieldsToSerialize tyExplicitWin = [⟨"A", true, [1, 0], .string⟩] ∧
    UnmarshalNew [] 10 tyExplicitWin (treeSrc treeA) () =
      some (.vstruct [.vstruct [.vstr ""], .vstruct [.vstr "A"]], (), none) := by
  refine ⟨?_, ?_, ?_, ?_, ?_⟩
  · intro cs h2
    cases hv : visibleOf cs with
    | nil => rw [hv] at h2; simp at h2
    | cons c tail =>
      cases tail with
      | nil => rw [hv] at h2; simp at h2
      | cons d tail2 =>
        constructor
        · intro h1
          simp only [choose]
          rw [if_pos h1]
        · intro h1
          simp only [choose]
          rw [if_neg h1]
  · simp [fieldsToSerialize, collectCands, structFieldsOf, processFields, nameOf,
          selectFields, selectForName, dedupFirst, visibleOf, visibleStep, choose,
          FieldI.exported, FieldI.anonymous, FieldI.tag, FieldI.name, FieldI.ty,
          fld, tyConflict, tyFirstA]
  · simp [UnmarshalNew, Unmarshal, setterOk, setterOkFields, inList,
          setValue, setStructFields, setString,
          Src.sStr, Src.child, treeSrc, treeChildren, treeGet,
          fieldsToSerialize, collectCands, structFieldsOf, processFields, nameOf,
          selectFields, selectForName, dedupFirst, visibleOf, visibleStep, choose,
          FieldI.exported, FieldI.anonymous, FieldI.tag, FieldI.name, FieldI.ty,
          fld, tyConflict, tyFirstA, treeA, lookupEnv, zeroOf, zeroValueF, tySize,
          fieldsSize, envSizeSum, getPath, setPath, GoErr.isNoValue]
  · simp [fieldsToSerialize, collectCands, structFieldsOf, processFields, nameOf,
          selectFields, selectForName, dedupFirst, visibleOf, visibleStep, choose,
          FieldI.exported, FieldI.anonymous, FieldI.tag, FieldI.name, FieldI.ty,
          fld, tyExplicitWin, tyFirstA, tySecondExp]
  · simp [UnmarshalNew, Unmarshal, setterOk, setterOkFields, inList,
          setValue, setStructFields, setString,
          Src.sStr, Src.child, treeSrc, treeChildren, treeGet,
          fieldsToSerialize, collectCands, structFieldsOf, processFields, nameOf,
          selectFields, selectForName, dedupFirst, visibleOf, visibleStep, choose,
          FieldI.exported, FieldI.anonymous, FieldI.tag, FieldI.name, FieldI.ty,
          fld, tyExplicitWin, tyFirstA, tySecondExp, treeA, lookupEnv, zeroOf,
          zeroValueF, tySize, fieldsSize, envSizeSum, getPath, setPath,
          GoErr.isNoValue]

/-- Witness for C1: a tied candidate list with two same-depth non-explicit
candidates is ambiguous and selects nothing. -/
theorem c1_same_depth_conflict_resolution_witness :
    2 ≤ (visibleOf [⟨"A", false, [0, 0], .string⟩, ⟨"A", false, [1, 0], .string⟩]).length ∧
    ((visibleOf [⟨"A", false, [0, 0], .string⟩,
        ⟨"A", false, [1, 0], .string⟩]).filter (fun c => c.explicit)).length ≠ 1 ∧
    choose (visibleOf [⟨"A", false, [0, 0], .string⟩, ⟨"A", false, [1, 0], .string⟩]) = [] :=
  ⟨by simp [visibleOf, visibleStep],
   by simp [visibleOf, visibleStep],
   (c1_same_depth_conflict_resolution.1
      [⟨"A", false, [0, 0], .string⟩, ⟨"A", false, [1, 0], .string⟩]
      (by simp [visibleOf, visibleStep])).2
      (by simp [visibleOf, visibleStep])⟩

/-- C2.  Compiling the setter for the self-referential `GitCommit` type
terminates and succeeds (the in-construction set short-circuits the cycle;
`setterOk` is a total function, so the equation below is also a termination
statement), and decoding a three-deep commit chain yields exactly three
populated nodes followed by a nil pointer terminator. -/
theorem c2_recursive_type_compile_and_decode :
    setterOk gitEnv [] (.named "GitCommit") = .ok () ∧
    UnmarshalNew gitEnv 20 (.named "GitCommit") (treeSrc gitChain) () =
      some (gitExpected, (), none) := by
  constructor
  · simp [setterOk, setterOkFields, fieldsToSerialize, collectCands, structFieldsOf,
          processFields, nameOf, selectFields, selectForName, dedupFirst, visibleOf,
          visibleStep, choose, FieldI.exported, FieldI.anonymous, FieldI.tag,
          FieldI.name, FieldI.ty, fld, gitEnv, gitTy, inList, lookupEnv]
  · simp [UnmarshalNew, Unmarshal, setterOk, setterOkFields, inList,
          setValue, setStructFields, setString, setBool, setInt, setUint, setFloat,
          Src.sStr, Src.sBool, Src.sInt, Src.sFloat, Src.child, Src.seqC, Src.kvs,
          Src.sized, treeSrc, treeChildren, treeGet, fieldsToSerialize, collectCands,
          structFieldsOf, processFields, nameOf, selectFields, selectForName,
          dedupFirst, visibleOf, visibleStep, choose, FieldI.exported,
          FieldI.anonymous, FieldI.tag, FieldI.name, FieldI.ty, fld, gitEnv, gitTy,
          gitChain, gitExpected, lookupEnv, zeroOf, zeroValueF, tySize, fieldsSize,
          envSizeSum, getPath, setPath, GoErr.isNoValue]

/-- C3.  In a struct decode, a field whose `Get` fails with `ErrNoValue` is
skipped (the loop continues on the remaining fields with the target slot
untouched); any other `Get` failure aborts the whole struct decode wrapped
with the field name; a nested setter failure aborts wrapped with the field
name, the partial write remaining visible; and the struct setter is exactly
this loop over the resolved fields once the container capability is
present. -/
theorem c3_struct_field_error_policy {σ : Type} (env : Env) (f : Nat)
    (getC : σ → String → Except GoErr (Src σ) × σ) (st st2 : σ) (tgt : TValue)
    (c : Cand) (rest : List Cand) (e : GoErr) (childSrc : Src σ) :
    (getC st c.name = (.error e, st2) → e.isNoValue = true →
      setStructFields env (f + 1) (c :: rest) getC st tgt =
        setStructFields env f rest getC st2 tgt) ∧
    (getC st c.name = (.error e, st2) → e.isNoValue = false →
      setStructFields env (f + 1) (c :: rest) getC st tgt =
        some (tgt, st2, some (.wrap (("lookup child ") ++ c.name) e))) ∧
    (∀ (fv : TValue) (st3 : σ) (e2 : GoErr),
      getC st c.name = (.ok childSrc, st2) →
      setValue env f c.ty childSrc st2 ((getPath tgt c.index).getD (zeroOf env c.ty)) =
        some (fv, st3, some e2) →
      setStructFields env (f + 1) (c :: rest) getC st tgt =
        some (setPath tgt c.index fv, st3, some (.wrap (("set field ") ++ c.name) e2))) ∧
    (∀ (fs : List FieldI) (src : Src σ), src.child = some getC →
      setValue env (f + 1) (.struct fs) src st tgt =
        setStructFields env f (fieldsToSerialize (.struct fs)) getC st tgt) := by
  refine ⟨?_, ?_, ?_, ?_⟩
  · intro h1 h2
    rw [setStructFields, h1]
    simp [h2]
  · intro h1 h2
    rw [setStructFields, h1]
    simp [h2]
  · intro fv st3 e2 h1 h2
    rw [setStructFields, h1]
    simp only [h2]
  · intro fs src hchild
    rw [setValue, hchild]

/-- Witness for C3: a container whose `Get` fails with a non-`ErrNoValue`
error aborts the struct decode wrapped with the field name. -/
theorem c3_struct_field_error_policy_witness :
    boomGet () "X" = (.error (.txt ("boom")), ()) ∧
    GoErr.isNoValue (.txt ("boom")) = false ∧
    setStructFields [] 1 [⟨"X", false, [0], .string⟩] boomGet () (.vstruct [.vstr ""]) =
      some (.vstruct [.vstr ""], (),
        some (.wrap (("lookup child ") ++ "X") (.txt ("boom")))) :=
  ⟨rfl, rfl,
    ((c3_struct_field_error_policy [] 0 boomGet () () (.vstruct [.vstr ""])
      ⟨"X", false, [0], .string⟩ [] (.txt ("boom")) (treeSrc (.leafS ""))).2.1) rfl rfl⟩

/-- C4.  For every integer target of exact width 8/16/32/64 bits, signed or
unsigned, a source implementing the sized-integer capability is read through
the matching exact-width accessor: the decode result is fully determined by
that accessor (first two conjuncts, for `setInt` and `setUint` — the generic
`Int()` accessor does not appear).  Against the little-endian byte stream
`[0x00..0x0F]`, the struct with fields Int8/Int16/Int32/Int64 read
sequentially decodes to the little-endian interpretation of the byte runs of
width 1/2/4/8, with the cursor having advanced monotonically to 15 and no
byte read twice (third conjunct: the final cursor equals the total width
consumed); the unsigned Uint8/Uint16/Uint32/Uint64 struct behaves the same
way (fourth conjunct). -/
theorem c4_sized_int_preference :
    (∀ {σ : Type} (env : Env) (f : Nat) (src : Src σ) (ops : SizedSrc σ) (st : σ)
      (tgt : TValue) (w : IntW), src.sized = some ops → w ≠ .word →
      setValue env (f + 1) (.int w) src st tgt =
        some (match sizedIntGet ops w st with
              | (.error e, st2) => (tgt, st2, some (.wrap (sizedIntMsg w) e))
              | (.ok v, st2) => (.vint (truncInt w v), st2, none))) ∧
    (∀ {σ : Type} (env : Env) (f : Nat) (src : Src σ) (ops : SizedSrc σ) (st : σ)
      (tgt : TValue) (w : IntW), src.sized = some ops → w ≠ .word →
      setValue env (f + 1) (.uint w) src st tgt =
        some (match sizedUintGet ops w st with
              | (.error e, st2) => (tgt, st2, some (.wrap (sizedUintMsg w) e))
              | (.ok v, st2) => (.vuint (truncNat w v), st2, none))) ∧
    UnmarshalNew [] 10 tyBin (binSrc bytes16 1) 0 =
      some (.vstruct [.vint 0, .vint 513, .vint 100992003, .vint 1012478732780767239],
        15, none) ∧
    UnmarshalNew [] 10 tyBinU (binSrc bytes16 1) 0 =
      some (.vstruct [.vuint 0, .vuint 513, .vuint 100992003,
        .vuint 1012478732780767239], 15, none) := by
  refine ⟨?_, ?_, ?_, ?_⟩
  · intro σ env f src ops st tgt w hs hw
    cases w with
    | word => exact absurd rfl hw
    | w8 => simp only [setValue, setInt, hs]
    | w16 => simp only [setValue, setInt, hs]
    | w32 => simp only [setValue, setInt, hs]
    | w64 => simp only [setValue, setInt, hs]
  · intro σ env f src ops st tgt w hs hw
    cases w with
    | word => exact absurd rfl hw
    | w8 => simp only [setValue, setUint, hs]
    | w16 => simp only [setValue, setUint, hs]
    | w32 => simp only [setValue, setUint, hs]
    | w64 => simp only [setValue, setUint, hs]
  · simp [UnmarshalNew, Unmarshal, setterOk, setterOkFields, inList,
          setValue, setStructFields, setString, setBool, setInt, setUint, setFloat,
          sizedIntGet, sizedIntMsg, setIntGeneric, truncInt, IntW.bits,
          Src.sStr, Src.sBool, Src.sInt, Src.sFloat, Src.child, Src.seqC, Src.kvs,
          Src.sized, binSrc, binSized, binReadI, binReadU, binBool, binStr, readLE,
          fieldsToSerialize, collectCands,
          structFieldsOf, processFields, nameOf, selectFields, selectForName,
          dedupFirst, visibleOf, visibleStep, choose, FieldI.exported,
          FieldI.anonymous, FieldI.tag, FieldI.name, FieldI.ty, fld, tyBin, bytes16,
          lookupEnv, zeroOf, zeroValueF, tySize, fieldsSize,
          envSizeSum, getPath, setPath, GoErr.isNoValue]
  · simp [UnmarshalNew, Unmarshal, setterOk, setterOkFields, inList,
          setValue, setStructFields, setString, setBool, setInt, setUint, setFloat,
          sizedUintGet, sizedUintMsg, setUintGeneric, truncNat, IntW.bits,
          Src.sStr, Src.sBool, Src.sInt, Src.sFloat, Src.child, Src.seqC, Src.kvs,
          Src.sized, binSrc, binSized, binReadI, binReadU, binBool, binStr, readLE,
          fieldsToSerialize, collectCands,
          structFieldsOf, processFields, nameOf, selectFields, selectForName,
          dedupFirst, visibleOf, visibleStep, choose, FieldI.exported,
          FieldI.anonymous, FieldI.tag, FieldI.name, FieldI.ty, fld, tyBinU, bytes16,
          lookupEnv, zeroOf, zeroValueF, tySize, fieldsSize,
          envSizeSum, getPath, setPath, GoErr.isNoValue]

/-- Witness for C4: the int8 and uint8 slots of the binary source are decoded
through the matching sized accessors, each reading exactly one byte. -/
theorem c4_sized_int_preference_witness :
    (binSrc bytes16 1).sized = some (binSized bytes16) ∧
    IntW.w8 ≠ IntW.word ∧
    setValue [] 1 (.int .w8) (binSrc bytes16 1) 0 (.vint 99) =
      some (.vint 0, 1, none) ∧
    setValue [] 1 (.uint .w8) (binSrc bytes16 1) 0 (.vuint 99) =
      some (.vuint 0, 1, none) := by
  refine ⟨rfl, by decide, ?_, ?_⟩
  · have h := c4_sized_int_preference.1 [] 0 (binSrc bytes16 1) (binSized bytes16) 0
      (.vint 99) .w8 rfl (by decide)
    rw [h]
    simp [sizedIntGet, binSized, binReadI, binReadU, readLE, bytes16, truncInt,
          IntW.bits]
  · have h := c4_sized_int_preference.2.1 [] 0 (binSrc bytes16 1) (binSized bytes16) 0
      (.vuint 99) .w8 rfl (by decide)
    rw [h]
    simp [sizedUintGet, binSized, binReadU, readLE, bytes16, truncNat, IntW.bits]

/-- C5.  A pointer-typed target decodes by allocating a fresh zero pointee,
recursively decoding into it, and attaching the pointer only after that
decode succeeds: on a pointee failure the pointer slot is left exactly as it
was (first conjunct), on success the pointer points at the decoded value
(second conjunct), and a struct whose container has no child for the pointer
field leaves the pointer nil rather than pointing at a zero value (third
conjunct, mirroring the absent-`Parent` behaviour). -/
theorem c5_pointer_attach_on_success :
    (∀ {σ : Type} (env : Env) (f : Nat) (src : Src σ) (st st2 : σ)
      (tgt pv : TValue) (t : Ty) (e : GoErr),
      (setValue env f t src st (zeroOf env t) = some (pv, st2, some e) →
        setValue env (f + 1) (.pointer t) src st tgt = some (tgt, st2, some e)) ∧
      (setValue env f t src st (zeroOf env t) = some (pv, st2, none) →
        setValue env (f + 1) (.pointer t) src st tgt =
          some (.vptr (some pv), st2, none))) ∧
    UnmarshalNew [] 10 tyHost (treeSrc (.node [])) () =
      some (.vstruct [.vptr none], (), none) := by
  constructor
  · intro σ env f src st st2 tgt pv t e
    constructor
    · intro h
      rw [setValue, h]
    · intro h
      rw [setValue, h]
  · simp [UnmarshalNew, Unmarshal, setterOk, setterOkFields, inList,
          setValue, setStructFields, setString,
          Src.sStr, Src.child, treeSrc, treeChildren, treeGet,
          fieldsToSerialize, collectCands, structFieldsOf, processFields, nameOf,
          selectFields, selectForName, dedupFirst, visibleOf, visibleStep, choose,
          FieldI.exported, FieldI.anonymous, FieldI.tag, FieldI.name, FieldI.ty,
          fld, tyHost, tyFirstA, lookupEnv, zeroOf, zeroValueF, tySize,
          fieldsSize, envSizeSum, getPath, setPath, GoErr.isNoValue]

/-- Witness for C5: a failing pointee decode leaves the nil pointer slot
unchanged. -/
theorem c5_pointer_attach_on_success_witness :
    setValue [] 1 Ty.string (treeSrc (.node [])) () (zeroOf [] .string) =
      some (zeroOf [] .string, (), some (.wrap ("get string value") .invalidType)) ∧
    setValue [] 2 (.pointer .string) (treeSrc (.node [])) () (.vptr none) =
      some (.vptr none, (), some (.wrap ("get string value") .invalidType)) := by
  have h1 : setValue [] 1 Ty.string (treeSrc (.node [])) () (zeroOf [] .string) =
      some (zeroOf [] .string, (), some (.wrap ("get string value") .invalidType)) := by
    simp [setValue, setString, treeSrc, treeChildren, Src.sStr, zeroOf, zeroValueF,
          tySize, envSizeSum]
  exact ⟨h1, (c5_pointer_attach_on_success.1 [] 1 (treeSrc (.node [])) () ()
    (.vptr none) (zeroOf [] .string) .string
    (.wrap ("get string value") .invalidType)).1 h1⟩

/-- C6.  A fixed-array target of length `n` decoded from a sequence of `m`
elements populates exactly the first `min n m` slots in order: with `m ≥ n`,
exactly the first `n` source elements are used and the remaining elements are
never pulled (the final source state still holds `els.drop n`); with
`m < n`, the first `m` slots are populated and the remaining `n - m` slots
keep their zero values, with no error raised. -/
theorem c6_array_truncate_zero_pad (n k : Nat) (els : List String) :
    UnmarshalNew [] (n + k + 2) (.array n .string) strSeqSrc els =
      some (.varray ((els.take n).map TValue.vstr ++
        List.replicate (n - els.length) (.vstr "")), els.drop n, none) := by
  have hz : zeroOf [] (.array n .string) = .varray (List.replicate n (.vstr "")) := by
    simp [zeroOf, zeroValueF, tySize, envSizeSum]
  have hsetter : setterOk [] [] (.array n .string) = .ok () := by
    simp [setterOk]
  rw [UnmarshalNew, Unmarshal, hsetter, hz]
  show setValue [] ((n + k + 1) + 1) (.array n .string) strSeqSrc els
    (.varray (List.replicate n (.vstr ""))) = _
  rw [setValue]
  simp only [strSeqSrc, Src.seqC]
  rw [setArrayElems_strSeq k n 0 els (List.replicate n (.vstr "")) (by simp)]
  have hmin : n - min n els.length = n - els.length := by omega
  simp [List.drop_replicate, hmin]

/-- C7.  An unsigned target decoded through the generic `Int()` fallback
(no sized-integer capability, or a word-sized target) is range/sign-checked:
a negative source value yields a fatal field-scoped error and the target is
not modified; a non-negative value is stored truncated to the target
width. -/
theorem c7_uint_negative_rejected {σ : Type} (env : Env) (f : Nat) (src : Src σ)
    (st st2 : σ) (tgt : TValue) (w : IntW) (v : Int)
    (hcap : src.sized = none ∨ w = .word) :
    (src.sInt st = (.ok v, st2) → v < 0 →
      setValue env (f + 1) (.uint w) src st tgt =
        some (tgt, st2, some (.txt (("invalid uint value ") ++ toString v)))) ∧
    (src.sInt st = (.ok v, st2) → 0 ≤ v →
      setValue env (f + 1) (.uint w) src st tgt =
        some (.vuint (truncNat w v.toNat), st2, none)) := by
  have hgen : setValue env (f + 1) (.uint w) src st tgt =
      some (setUintGeneric w src st tgt) := by
    rcases hcap with h | h
    · simp only [setValue, setUint, h]
    · subst h
      cases hs : src.sized with
      | none => simp only [setValue, setUint, hs]
      | some ops => simp only [setValue, setUint, hs]
  constructor
  · intro h1 h2
    rw [hgen]
    simp only [setUintGeneric, h1]
    rw [if_pos h2]
  · intro h1 h2
    rw [hgen]
    simp only [setUintGeneric, h1]
    rw [if_neg (by omega)]

/-- Witness for C7: a source without the sized capability returning `-5` for
an unsigned target produces the fatal range error and leaves the target
unchanged. -/
theorem c7_uint_negative_rejected_witness :
    (treeSrc (.leafI (-5))).sized = none ∧
    (treeSrc (.leafI (-5))).sInt () = (.ok (-5), ()) ∧
    ((-5 : Int) < 0) ∧
    setValue [] 1 (.uint .w16) (treeSrc (.leafI (-5))) () (.vuint 7) =
      some (.vuint 7, (), some (.txt (("invalid uint value ") ++ toString (-5 : Int)))) := by
  have hs : (treeSrc (.leafI (-5))).sized = none := by
    simp [treeSrc, Src.sized]
  have hi : (treeSrc (.leafI (-5))).sInt () = (.ok (-5), ()) := by
    simp [treeSrc, Src.sInt]
  exact ⟨hs, hi, by norm_num,
    (c7_uint_negative_rejected [] 0 (treeSrc (.leafI (-5))) () () (.vuint 7)
      .w16 (-5) (Or.inl hs)).1 hi (by norm_num)⟩

/-- C8 counterexample.  The claim "on success the target slice ends with
exactly as many elements as the source produced, for every initial value of
the target slice" is false: `makeSetSlice` appends to the existing slice
without clearing it, so applying `Unmarshal` to the one-element slice
`["x"]` with a source producing the single element `"a"` succeeds with a
two-element slice, not a one-element one. -/
theorem c8_counterexample :
    Unmarshal [] 4 (.slice .string) strSeqSrc ["a"] (.vslice [.vstr "x"]) =
      some (.vslice [.vstr "x", .vstr "a"], [], none) ∧
    (sliceElems (.vslice [.vstr "x", .vstr "a"])).length ≠ (["a"] : List String).length := by
  constructor
  · simp [Unmarshal, setterOk, setValue, setSliceElems, setString, strSeqSrc,
          strSeqPull, strScalarSrcL, Src.sStr, Src.seqC, sliceElems, zeroOf,
          zeroValueF, tySize, envSizeSum]
  · simp [sliceElems]

/-- C8 as amended.  A slice decode iterates the sequence exactly once and
appends one decoded element per yielded source element: on success the target
slice ends with its initial elements followed by exactly as many new elements
as the source produced.  When the initial slice is empty (as with
`UnmarshalNew`), that count equals the number of source elements. -/
theorem c8_slice_append_semantics (k : Nat) (init : List TValue) (els : List String) :
    Unmarshal [] (els.length + k + 2) (.slice .string) strSeqSrc els (.vslice init) =
      some (.vslice (init ++ els.map TValue.vstr), [], none) := by
  have hsetter : setterOk [] [] (.slice .string) = .ok () := by
    simp [setterOk]
  rw [Unmarshal, hsetter]
  show setValue [] ((els.length + k + 1) + 1) (.slice .string) strSeqSrc els
    (.vslice init) = _
  rw [setValue]
  simp only [strSeqSrc, Src.seqC]
  rw [setSliceElems_strSeq k els init]

/-- C9.  A target type whose pointer type implements
`encoding.TextUnmarshaler` decodes by reading the source node as a string and
delegating to the type's own parser; this takes priority over structural
decoding regardless of the underlying kind (the behaviour does not depend on
the inner shape at all, and even a type whose underlying kind is unsupported
compiles), and the setter fails exactly when `String()` fails (wrapped) or
the custom parser rejects the string (its error returned as is). -/
theorem c9_text_unmarshal_priority {σ : Type} (env : Env) (f : Nat)
    (parse : String → TValue → TValue × Option GoErr) (inner1 inner2 : Ty)
    (src : Src σ) (st : σ) (tgt : TValue) :
    setValue env (f + 1) (.withTextUnmarshal parse inner1) src st tgt =
      some (setTextUnmarshaler parse src st tgt) ∧
    setValue env (f + 1) (.withTextUnmarshal parse inner1) src st tgt =
      setValue env (f + 1) (.withTextUnmarshal parse inner2) src st tgt ∧
    setTextUnmarshaler parse src st tgt =
      (match src.sStr st with
       | (.error e, st2) => (tgt, st2, some (.wrap ("get string value") e))
       | (.ok text, st2) => ((parse text tgt).1, st2, (parse text tgt).2)) ∧
    setterOk env [] (.withTextUnmarshal parse (.unsupported "func")) = .ok () := by
  refine ⟨?_, ?_, ?_, ?_⟩
  · simp only [setValue]
  · simp only [setValue]
  · simp only [setTextUnmarshaler]
  · simp [setterOk]

/-- C10.  An exported anonymous (embedded) field without an explicit rename
whose type is not of struct kind — such as an embedded pointer-to-struct —
is dropped entirely during field resolution: the walk neither promotes its
fields nor records it as a candidate (first conjunct, over every such field
in any position), concretely the embedded-pointer struct resolves to no
fields (second conjunct), and decoding that struct from any source leaves
the whole target at its zero value (third conjunct). -/
theorem c10_embedded_nonstruct_dropped :
    (∀ (parent : List Nat) (i : Nat) (fi : FieldI) (rest : List FieldI),
      fi.exported = true → fi.anonymous = true → (nameOf fi).2 = false →
      (nameOf fi).1 ≠ "" → structFieldsOf fi.ty = none →
      processFields parent i (fi :: rest) = processFields parent (i + 1) rest) ∧
    fieldsToSerialize tyPtrEmbed = [] ∧
    (∀ {σ : Type} (fuel : Nat) (src : Src σ) (st : σ) (v : TValue) (s2 : σ)
      (er : Option GoErr),
      setValue [] fuel tyPtrEmbed src st (zeroOf [] tyPtrEmbed) = some (v, s2, er) →
      v = zeroOf [] tyPtrEmbed) := by
  have hfts : fieldsToSerialize tyPtrEmbed = [] := by
    simp [fieldsToSerialize, collectCands, structFieldsOf, processFields, nameOf,
          selectFields, selectForName, dedupFirst, visibleOf, visibleStep, choose,
          FieldI.exported, FieldI.anonymous, FieldI.tag, FieldI.name, FieldI.ty,
          fld, tyPtrEmbed, tyFirstA]
  refine ⟨?_, hfts, ?_⟩
  · intro parent i fi rest hE hA hTag hName hKind
    simp only [processFields]
    rw [hE]
    simp only [Bool.not_true, Bool.false_eq_true, if_false]
    rw [if_neg hName]
    rw [if_pos (by simp [hA, hTag])]
    rw [if_neg (by simp [hKind])]
  · intro σ fuel src st v s2 er h
    cases fuel with
    | zero => simp [setValue] at h
    | succ f =>
        rw [tyPtrEmbed] at h
        rw [setValue] at h
        rw [show Ty.struct [FieldI.mk "First" "" true true (.pointer tyFirstA)] =
          tyPtrEmbed from rfl] at h
        cases hc : src.child with
        | none =>
            rw [hc] at h
            simp at h
            exact h.1.symm
        | some getC =>
            rw [hc] at h
            rw [hfts] at h
            cases f with
            | zero => simp [setStructFields] at h
            | succ f2 =>
                simp only [setStructFields, Option.some.injEq, Prod.mk.injEq] at h
                exact h.1.symm

/-- Witness for C10: the embedded `*First` field is dropped by the walk and
the concrete decode of the embedded-pointer struct leaves the target at its
zero value. -/
theorem c10_embedded_nonstruct_dropped_witness :
    processFields [] 0 [.mk "First" "" true true (.pointer tyFirstA)] =
      processFields [] 1 [] ∧
    setValue [] 3 tyPtrEmbed (treeSrc treeA) () (zeroOf [] tyPtrEmbed) =
      some (zeroOf [] tyPtrEmbed, (), none) ∧
    zeroOf [] tyPtrEmbed = zeroOf [] tyPtrEmbed := by
  have hdecode : setValue [] 3 tyPtrEmbed (treeSrc treeA) () (zeroOf [] tyPtrEmbed) =
      some (zeroOf [] tyPtrEmbed, (), none) := by
    simp [setValue, setStructFields, treeSrc, treeChildren, treeGet, Src.child,
          fieldsToSerialize, collectCands, structFieldsOf, processFields, nameOf,
          selectFields, selectForName, dedupFirst, visibleOf, visibleStep, choose,
          FieldI.exported, FieldI.anonymous, FieldI.tag, FieldI.name, FieldI.ty,
          fld, tyPtrEmbed, tyFirstA, treeA, zeroOf, zeroValueF, tySize, fieldsSize,
          envSizeSum]
  refine ⟨?_, hdecode, ?_⟩
  · exact c10_embedded_nonstruct_dropped.1 [] 0 (.mk "First" "" true true (.pointer tyFirstA))
      [] rfl rfl rfl (by simp [nameOf, FieldI.tag, FieldI.name]) rfl
  · exact (c10_embedded_nonstruct_dropped.2.2 3 (treeSrc treeA) () (zeroOf [] tyPtrEmbed)
      () none hdecode) ▸ rfl
